import Mathlib

/-!
Verification of the SpeedTest backend (Express/Node server variants).

This file shallowly embeds the request handlers of the repository and
proves or refutes the frozen claims about them.  The embedding keeps the
source control flow: JavaScript numbers that hold byte counts are
modelled as `Int` (all values involved are exact integers), buffers are
modelled as lists of byte values, fallible operations return `Option`,
and the event-loop callback chain of the chunk-sending loops is
modelled as explicit recursion (the continuation of each write runs in
the callback invoked once the write is acknowledged).
-/

namespace SpeedTest

/-- Models the JavaScript idiom `parseInt(q) || d` used by every handler to
read a numeric query parameter: `none` stands for an absent or non-numeric
parameter (where `parseInt` yields `NaN`, which is falsy), and a parsed
value of `0` is falsy as well, so both fall back to the default `d`.
Any other parsed integer (negative ones included) is truthy and kept. -/
def parseOr (q : Option Int) (d : Int) : Int :=
  match q with
  | none => d
  | some v => if v = 0 then d else v

/-- Models `Math.ceil(a / b)` on exact integer arguments, as used for
`chunkCount = Math.ceil(bufferSize / chunkSize)`.  For `b ≠ 0` the real
quotient is `a / b` and its ceiling is `-⌊(-a) / b⌋`, written with the
flooring division `Int.fdiv` (which floors for either sign of `b`).
The `b = 0` branch is unreachable from the handlers (the `||` fallback
turns a zero chunk parameter into the 1 MiB default). -/
def jsCeilDiv (a b : Int) : Int :=
  if b = 0 then 0 else -(Int.fdiv (-a) b)

/-- Models `buffer.writeUInt32LE(value, offset)` from Node.  The four bytes
of `value` are stored little-endian at `offset`; Node range-checks the
write and throws `ERR_OUT_OF_RANGE` when `offset + 4` exceeds the buffer
length, modelled by returning `none`. -/
def writeUInt32LE (buf : List Nat) (v : Nat) (off : Nat) : Option (List Nat) :=
  if off + 4 ≤ buf.length then
    some (buf.take off ++ [v % 256, v / 256 % 256, v / 65536 % 256, v / 16777216 % 256]
      ++ buf.drop (off + 4))
  else none

/-- Loop body of `generateRandomBuffer` (part_001, lines 72-82):
`for (let i = 0; i < sizeInBytes; i += 4) buffer.writeUInt32LE(rand, i)`.
The pseudo-random draws `Math.floor(Math.random() * 0xFFFFFFFF)` are
abstracted as a stream `rng` of draws, reduced mod `2^32` as the source
values always are; `k` counts the draws used so far.  A failing write
propagates as `none` (in Node the exception aborts the function). -/
def genLoop (rng : Nat → Nat) (n : Nat) (i k : Nat) (buf : List Nat) : Option (List Nat) :=
  if i < n then
    match writeUInt32LE buf (rng k % 4294967296) i with
    | none => none
    | some b => genLoop rng n (i + 4) (k + 1) b
  else
    some buf
termination_by n - i
decreasing_by omega

/-- Models `generateRandomBuffer(sizeInBytes)` (part_001, lines 72-82):
allocate `sizeInBytes` zero bytes, then fill with 32-bit words at offsets
`0, 4, 8, ...`.  Returns `none` when a word write lands out of range,
which is exactly what happens for sizes not divisible by 4. -/
def generateRandomBuffer (rng : Nat → Nat) (sizeInBytes : Nat) : Option (List Nat) :=
  genLoop rng sizeInBytes 0 0 (List.replicate sizeInBytes 0)

/-- Condition under which a call `generateRandomBuffer(sz)` on an `Int`
size succeeds: `Buffer.alloc` throws for a negative size, and the word
loop throws for a length not divisible by 4 (see
`generateRandomBuffer_isSome_iff`, which proves the loop half of this
characterisation against the generator model). -/
def genOk (sz : Int) : Bool :=
  decide (0 ≤ sz) && decide (sz % 4 = 0)

/-- Models the `sendChunk(chunkIndex)` loop of the chunked download
handler (part_001, lines 144-178).  Arguments mirror the captured
variables `bufferSize`, `chunkSize`, `chunkCount` and the loop state
`chunkIndex`, `sentBytes`.  The result records, in order, each
successful `res.write` as the pair (offset = `sentBytes` at the time of
the write, length = `currentChunkSize`), together with a flag telling
whether `res.end()` was reached.  The continuation of each write runs in
its completion callback, so the recursion here is the callback chain of
the source.  Each chunk buffer comes from `generateRandomBuffer`, whose
success is characterised by `genOk` (proved in
`generateRandomBuffer_isSome_iff`); when generation throws, no write
happens, the loop stops and `res.end()` is never called. -/
def sendChunk (bufferSize chunkSize chunkCount chunkIndex sentBytes : Int) :
    List (Int × Int) × Bool :=
  if chunkCount ≤ chunkIndex then ([], true)
  else
    let remainingBytes := bufferSize - sentBytes
    let currentChunkSize := min chunkSize remainingBytes
    if genOk currentChunkSize then
      if chunkIndex < chunkCount - 1 then
        let rest := sendChunk bufferSize chunkSize chunkCount (chunkIndex + 1)
          (sentBytes + currentChunkSize)
        ((sentBytes, currentChunkSize) :: rest.1, rest.2)
      else
        ([(sentBytes, currentChunkSize)], true)
    else ([], false)
termination_by (chunkCount - chunkIndex).toNat
decreasing_by
  simp only [not_le] at *
  omega

/-- Total number of bytes in a list of written chunks (second components). -/
def sumSizes (l : List (Int × Int)) : Int :=
  (l.map (fun p => p.2)).sum

/-- The written chunks start at offset `s` and are contiguous: each chunk
begins exactly where the previous one ended (no gap, no duplicate, and
offsets strictly increase as soon as the lengths are positive). -/
def consecutiveFrom : Int → List (Int × Int) → Prop
  | _, [] => True
  | s, (o, l) :: rest => o = s ∧ consecutiveFrom (s + l) rest

/-- Result of the chunked `/download` handler when validation passes:
the `Content-Length` header value, the chunk writes performed, and
whether the stream was ended. -/
structure ChunkedOk where
  contentLength : Int
  chunks : List (Int × Int)
  ended : Bool
deriving DecidableEq

/-- Response of the chunked `/download` handler: either an error status
with its JSON message, or a streamed body. -/
inductive DownloadResult
  | err (status : Int) (msg : String)
  | ok (r : ChunkedOk)
deriving DecidableEq

/-- Models `app.get("/download")` of the chunked variant (part_001, lines
117-179): parse `size` (MB, default 10) and `chunk` (bytes, default
1 MiB) with the `parseInt(x) || d` idiom, reject `size > 100` and
`size < 1` with a 400 error before any streaming, otherwise set
`Content-Length` to `size * 1024 * 1024` and run the `sendChunk` loop
from index 0 with no bytes sent. -/
def downloadChunked (sizeQ chunkQ : Option Int) : DownloadResult :=
  let size := parseOr sizeQ 10
  let chunkSize := parseOr chunkQ (1024 * 1024)
  let bufferSize := size * 1024 * 1024
  if 100 < size then .err 400 "Maximum download size is 100MB"
  else if size < 1 then .err 400 "Minimum download size is 1MB"
  else
    let chunkCount := jsCeilDiv bufferSize chunkSize
    let r := sendChunk bufferSize chunkSize chunkCount 0 0
    .ok ⟨bufferSize, r.1, r.2⟩

/-- Delivered body size of a chunked download response: the sum of all
written chunk lengths, or 0 when the handler answered with an error. -/
def totalBytes : DownloadResult → Int
  | .err _ _ => 0
  | .ok r => sumSizes r.chunks

/-- Content-Length header of a chunked download response, when one was set. -/
def contentLengthOf : DownloadResult → Option Int
  | .err _ _ => none
  | .ok r => some r.contentLength

/-- Response of the `server.js` `/download` handler: an error status, or a
body with its `Content-Length` header value and its delivered length. -/
inductive ServerResult
  | err (status : Int)
  | ok (contentLength : Int) (bodyLen : Int)
deriving DecidableEq

/-- Models `app.get("/download")` of `server.js` (lines 58-73): parse
`size` (MB, default 5), clamp it with `Math.min(size, 20)`, set
`Content-Length` to the clamped byte count and send one buffer of that
many bytes.  There is no size validation; an oversized request is
silently clamped.  A negative parsed size makes `Buffer.alloc` throw,
which Express reports as a 500 error. -/
def downloadServer (sizeQ : Option Int) : ServerResult :=
  let size := parseOr sizeQ 5
  let bufferSize := min size 20 * (1024 * 1024)
  if bufferSize < 0 then .err 500
  else .ok bufferSize bufferSize

/-- Bounds of the chunk count: for a positive buffer and chunk size,
`chunkCount = Math.ceil(bufferSize / chunkSize)` is positive, covers the
whole buffer, and is tight (one chunk fewer would not cover it). -/
lemma jsCeilDiv_bounds (B c : Int) (hB : 1 ≤ B) (hc : 1 ≤ c) :
    1 ≤ jsCeilDiv B c ∧ B ≤ jsCeilDiv B c * c ∧ (jsCeilDiv B c - 1) * c < B := by
  have hc0 : c ≠ 0 := by omega
  unfold jsCeilDiv
  rw [if_neg hc0, Int.fdiv_eq_ediv _ (by omega : (0:Int) ≤ c)]
  have h1 := Int.ediv_add_emod (-B) c
  have h2 := Int.emod_nonneg (-B) hc0
  have h3 := Int.emod_lt_of_pos (-B) (by omega : (0:Int) < c)
  set q := (-B) / c with hq
  set r := (-B) % c with hr
  have key : (-q) * c = B + r := by linear_combination (-1 : Int) * h1
  refine ⟨?_, by linarith, ?_⟩
  · by_contra hcon
    push_neg at hcon
    have hq0 : (0:Int) ≤ q := by omega
    have hnn : (0:Int) ≤ q * c := mul_nonneg hq0 (by omega)
    have : (-q) * c = -(q * c) := by ring
    linarith
  · have e : ((-q) - 1) * c = (-q) * c - c := by ring
    linarith

/-- Length preservation of a successful 32-bit word write. -/
lemma writeUInt32LE_length {buf b : List Nat} {v off : Nat}
    (h : writeUInt32LE buf v off = some b) : b.length = buf.length := by
  unfold writeUInt32LE at h
  by_cases hle : off + 4 ≤ buf.length
  · rw [if_pos hle] at h
    cases h
    simp [List.length_take, List.length_drop]
    omega
  · rw [if_neg hle] at h
    cases h

/-- The word-filling loop of the generator succeeds exactly when the number
of bytes still to fill is a multiple of 4: each iteration consumes 4
bytes, and a final partial word makes `writeUInt32LE` range-check fail. -/
lemma genLoop_isSome (k : Nat) :
    ∀ (rng : Nat → Nat) (n i j : Nat) (buf : List Nat), buf.length = n → n - i = k →
      ((genLoop rng n i j buf).isSome ↔ (n - i) % 4 = 0) := by
  induction k using Nat.strong_induction_on with
  | _ k ih =>
    intro rng n i j buf hlen hk
    rw [genLoop]
    by_cases hin : i < n
    · rw [if_pos hin]
      by_cases hw : i + 4 ≤ n
      · have hsome : ∃ b, writeUInt32LE buf (rng j % 4294967296) i = some b := by
          unfold writeUInt32LE
          rw [if_pos (by omega : i + 4 ≤ buf.length)]
          exact ⟨_, rfl⟩
        obtain ⟨b, hb⟩ := hsome
        rw [hb]
        have hblen : b.length = n := by rw [writeUInt32LE_length hb, hlen]
        have hrec := ih (n - (i + 4)) (by omega) rng n (i + 4) (j + 1) b hblen rfl
        rw [hrec]
        omega
      · have hnone : writeUInt32LE buf (rng j % 4294967296) i = none := by
          unfold writeUInt32LE
          rw [if_neg (by omega : ¬ i + 4 ≤ buf.length)]
        rw [hnone]
        simp
        omega
    · rw [if_neg hin]
      simp
      omega

/-- A successful run of the filling loop returns a buffer of the allocated
length. -/
lemma genLoop_length (k : Nat) :
    ∀ (rng : Nat → Nat) (n i j : Nat) (buf b : List Nat), buf.length = n → n - i = k →
      genLoop rng n i j buf = some b → b.length = n := by
  induction k using Nat.strong_induction_on with
  | _ k ih =>
    intro rng n i j buf b hlen hk h
    rw [genLoop] at h
    by_cases hin : i < n
    · rw [if_pos hin] at h
      cases hw : writeUInt32LE buf (rng j % 4294967296) i with
      | none => rw [hw] at h; cases h
      | some b2 =>
        rw [hw] at h
        have hb2 : b2.length = n := by rw [writeUInt32LE_length hw, hlen]
        by_cases hw4 : i + 4 ≤ n
        · exact ih (n - (i + 4)) (by omega) rng n (i + 4) (j + 1) b2 b hb2 rfl h
        · exfalso
          unfold writeUInt32LE at hw
          rw [if_neg (by omega : ¬ i + 4 ≤ buf.length)] at hw
          cases hw
    · rw [if_neg hin] at h
      cases h
      omega

/-- Success of `generateRandomBuffer` is equivalent to the requested size
being a multiple of 4 (the word loop writes whole 32-bit words only). -/
lemma generateRandomBuffer_isSome_iff (rng : Nat → Nat) (n : Nat) :
    (generateRandomBuffer rng n).isSome ↔ n % 4 = 0 := by
  have := genLoop_isSome n rng n 0 0 (List.replicate n 0) (by simp) (by omega)
  simpa using this

/-- A successful `generateRandomBuffer` call returns exactly the requested
number of bytes. -/
lemma generateRandomBuffer_length {rng : Nat → Nat} {n : Nat} {b : List Nat}
    (h : generateRandomBuffer rng n = some b) : b.length = n :=
  genLoop_length n rng n 0 0 (List.replicate n 0) b (by simp) (by omega) h

/-- The `genOk` test used inside the loop model agrees with the generator
model on every nonnegative size. -/
lemma generateRandomBuffer_genOk (rng : Nat → Nat) (sz : Int) (h : 0 ≤ sz) :
    ((generateRandomBuffer rng sz.toNat).isSome) = (genOk sz = true) := by
  rw [generateRandomBuffer_isSome_iff]
  simp only [genOk, Bool.and_eq_true, decide_eq_true_eq]
  simp only [eq_iff_iff]
  constructor
  · intro hmod
    exact ⟨h, by omega⟩
  · intro hand
    omega

/-- Main invariant of the chunk-sending loop.  From any loop state
`(chunkIndex, sentBytes)` that still has chunks to send, with a positive
chunk size divisible by 4 and a remaining byte count divisible by 4 that
fits the remaining chunk budget tightly, the loop ends the stream, emits
exactly the remaining number of chunks, writes them contiguously from
`sentBytes` with each length equal to `min chunkSize remaining`, and
delivers exactly the remaining bytes. -/
lemma sendChunk_run (k : Nat) :
    ∀ (B c cc i s : Int), 1 ≤ c → (4:Int) ∣ c → (4:Int) ∣ (B - s) → i < cc →
      B - s ≤ (cc - i) * c → (cc - i - 1) * c < B - s → (cc - i).toNat = k →
      (sendChunk B c cc i s).2 = true ∧
      (sendChunk B c cc i s).1.length = k ∧
      consecutiveFrom s (sendChunk B c cc i s).1 ∧
      (∀ p ∈ (sendChunk B c cc i s).1, p.2 = min c (B - p.1) ∧ 1 ≤ p.2) ∧
      sumSizes (sendChunk B c cc i s).1 = B - s := by
  induction k using Nat.strong_induction_on with
  | _ k ih =>
    intro B c cc i s hc h4c h4r hicc hub hlb hk
    have hccpos : (0:Int) ≤ cc - i - 1 := by omega
    have hlow0 : (0:Int) ≤ (cc - i - 1) * c := mul_nonneg hccpos (by omega)
    have hrem1 : (1:Int) ≤ B - s := by linarith
    have hcur1 : (1:Int) ≤ min c (B - s) := le_min hc hrem1
    have h4cur : (4:Int) ∣ min c (B - s) := by
      rcases le_total c (B - s) with hle | hle
      · rw [min_eq_left hle]; exact h4c
      · rw [min_eq_right hle]; exact h4r
    have hgen : genOk (min c (B - s)) = true := by
      simp only [genOk, Bool.and_eq_true, decide_eq_true_eq]
      have := Int.emod_emod_of_dvd (min c (B - s)) h4cur
      refine ⟨by omega, ?_⟩
      omega
    rw [sendChunk, if_neg (by omega : ¬ cc ≤ i)]
    simp only [hgen, if_true]
    by_cases hlt : i < cc - 1
    · have honec : (1:Int) * c ≤ (cc - i - 1) * c :=
        mul_le_mul_of_nonneg_right (by omega) (by omega)
      rw [one_mul] at honec
      have hcle : c ≤ B - s := by linarith
      have hcur : min c (B - s) = c := min_eq_left hcle
      rw [hcur, if_pos hlt]
      have e1 : (cc - (i + 1)) * c = (cc - i) * c - c := by ring
      have e2 : (cc - (i + 1) - 1) * c = (cc - i - 1) * c - c := by ring
      have hk1 : (cc - (i + 1)).toNat = k - 1 := by omega
      have hkpos : 1 ≤ k := by omega
      have hrec := ih (k - 1) (by omega) B c cc (i + 1) (s + c) hc h4c
        (by have : B - (s + c) = (B - s) - c := by ring
            rw [this]; exact dvd_sub h4r h4c)
        (by omega)
        (by linarith)
        (by linarith)
        hk1
      obtain ⟨he, hlen, hcons, hpt, hsum⟩ := hrec
      refine ⟨he, ?_, ⟨rfl, ?_⟩, ?_, ?_⟩
      · simp only [List.length_cons, hlen]; omega
      · exact hcons
      · intro p hp
        rcases List.mem_cons.mp hp with hp0 | hprest
        · rw [hp0]
          exact ⟨hcur.symm, by linarith⟩
        · exact hpt p hprest
      · simp only [sumSizes, List.map_cons, List.sum_cons] at *
        linarith
    · have hione : cc - i = 1 := by omega
      have htop : (cc - i) * c = c := by rw [hione, one_mul]
      have hremle : B - s ≤ c := by linarith
      have hcur : min c (B - s) = B - s := min_eq_right hremle
      rw [hcur, if_neg hlt]
      refine ⟨rfl, ?_, ⟨rfl, trivial⟩, ?_, ?_⟩
      · simp only [List.length_singleton]; omega
      · intro p hp
        rcases List.mem_singleton.mp hp with hp0
        rw [hp0]
        exact ⟨hcur.symm, hrem1⟩
      · simp [sumSizes]

/-- Top instantiation of `sendChunk_run`: a validated chunked download
session (positive buffer, positive chunk size, both divisible by 4)
ends the stream, writes exactly `Math.ceil(bufferSize / chunkSize)`
chunks, contiguously from offset 0, each chunk being
`min chunkSize remaining` bytes, and delivers exactly `bufferSize`
bytes in total. -/
lemma sendChunk_top (B c : Int) (hB : 1 ≤ B) (hc : 1 ≤ c)
    (h4B : (4:Int) ∣ B) (h4c : (4:Int) ∣ c) :
    (sendChunk B c (jsCeilDiv B c) 0 0).2 = true ∧
    (sendChunk B c (jsCeilDiv B c) 0 0).1.length = (jsCeilDiv B c).toNat ∧
    consecutiveFrom 0 (sendChunk B c (jsCeilDiv B c) 0 0).1 ∧
    (∀ p ∈ (sendChunk B c (jsCeilDiv B c) 0 0).1, p.2 = min c (B - p.1) ∧ 1 ≤ p.2) ∧
    sumSizes (sendChunk B c (jsCeilDiv B c) 0 0).1 = B := by
  obtain ⟨hcc1, hcc2, hcc3⟩ := jsCeilDiv_bounds B c hB hc
  have := sendChunk_run (jsCeilDiv B c).toNat B c (jsCeilDiv B c) 0 0 hc h4c
    (by simpa using h4B) (by omega)
    (by simpa using hcc2) (by simpa using hcc3) (by omega)
  simpa using this

/-- Models the `sendNextChunk()` loop of `/download-progressive`
(part_001, lines 226-244) over an abstract clock: `ts` is the sequence
of values `Date.now()` observed at the successive deadline checks (one
check before every chunk).  Before each chunk the loop re-checks
`Date.now() - startTime >= duration` and calls `res.end()` when it
holds; otherwise it writes a 1 MiB chunk and schedules itself again
from the write callback.  The result is `some (n, t)` when the trace is
long enough to reach closure: `n` chunks were written and the stream
was ended at the check observing time `t`; `none` means the trace ended
with the stream still open. -/
def sendNextChunk (startTime duration : Int) : List Int → Option (Nat × Int)
  | [] => none
  | t :: ts =>
    if duration ≤ t - startTime then some (0, t)
    else (sendNextChunk startTime duration ts).map (fun p => (p.1 + 1, p.2))

/-- Models `app.get("/download-progressive")` (part_001, lines 213-245):
parse `duration` (ms, default 5000) with the `parseInt(x) || d` idiom,
then run the deadline-checked chunk loop. -/
def downloadProgressive (durationQ : Option Int) (startTime : Int) (ts : List Int) :
    Option (Nat × Int) :=
  sendNextChunk startTime (parseOr durationQ 5000) ts

/-- Events of a streaming session, used to bound the number of in-flight
chunk buffers: a chunk buffer is created (`gen`), handed to `res.write`
(`write`), and released when the write completion callback runs (`ack`). -/
inductive Ev
  | gen
  | write
  | ack
deriving DecidableEq

/-- Running in-flight counter: `gen` allocates a chunk buffer, `ack`
releases it (the write has been flushed and the callback owns no buffer
afterwards), `write` hands the existing buffer over without copying. -/
def stepCount (n : Int) : Ev → Int
  | .gen => n + 1
  | .write => n
  | .ack => n - 1

/-- Checks that, starting from `n` live chunk buffers, every prefix of the
event list keeps the live count at most 1. -/
def boundOK (n : Int) : List Ev → Bool
  | [] => true
  | e :: es =>
    let m := stepCount n e
    decide (m ≤ 1) && boundOK m es

/-- Event trace of the `sendChunk` loop (part_001, lines 147-175), with
the same control flow as `sendChunk`: each iteration allocates one chunk
buffer with `generateRandomBuffer`, passes it to `res.write`, and only
inside the completion callback (after the buffer is released) schedules
the next iteration via `setImmediate`.  When generation throws, the
allocation happened but no write follows. -/
def sendChunkEv (bufferSize chunkSize chunkCount chunkIndex sentBytes : Int) : List Ev :=
  if chunkCount ≤ chunkIndex then []
  else
    let currentChunkSize := min chunkSize (bufferSize - sentBytes)
    if genOk currentChunkSize then
      if chunkIndex < chunkCount - 1 then
        .gen :: .write :: .ack ::
          sendChunkEv bufferSize chunkSize chunkCount (chunkIndex + 1)
            (sentBytes + currentChunkSize)
      else [.gen, .write, .ack]
    else [.gen]
termination_by (chunkCount - chunkIndex).toNat
decreasing_by
  simp only [not_le] at *
  omega

/-- Event trace of the `sendNextChunk` loop of `/download-progressive`
(part_001, lines 226-244): same callback discipline as `sendChunkEv`,
driven by the deadline checks instead of a chunk count. -/
def sendNextChunkEv (startTime duration : Int) : List Int → List Ev
  | [] => []
  | t :: ts =>
    if duration ≤ t - startTime then []
    else .gen :: .write :: .ack :: sendNextChunkEv startTime duration ts

/-- Helper: the trace of the size-bounded loop keeps at most one chunk
buffer live from a state with none. -/
lemma boundOK_sendChunkEv (k : Nat) :
    ∀ (B c cc i s : Int), (cc - i).toNat = k →
      boundOK 0 (sendChunkEv B c cc i s) = true := by
  induction k using Nat.strong_induction_on with
  | _ k ih =>
    intro B c cc i s hk
    rw [sendChunkEv]
    by_cases hci : cc ≤ i
    · rw [if_pos hci]; rfl
    · rw [if_neg hci]
      simp only
      by_cases hg : genOk (min c (B - s)) = true
      · rw [if_pos hg]
        by_cases hlt : i < cc - 1
        · rw [if_pos hlt]
          have hrec := ih (cc - (i + 1)).toNat (by omega) B c cc (i + 1)
            (s + min c (B - s)) rfl
          simp only [boundOK, stepCount]
          norm_num
          convert hrec using 2
        · rw [if_neg hlt]; rfl
      · rw [if_neg hg]; rfl

/-- Helper: the trace of the duration-bounded loop keeps at most one chunk
buffer live from a state with none. -/
lemma boundOK_sendNextChunkEv (startTime duration : Int) (ts : List Int) :
    boundOK 0 (sendNextChunkEv startTime duration ts) = true := by
  induction ts with
  | nil => rfl
  | cons t ts ihts =>
    rw [sendNextChunkEv]
    by_cases hd : duration ≤ t - startTime
    · rw [if_pos hd]; rfl
    · rw [if_neg hd]
      simp only [boundOK, stepCount]
      norm_num
      convert ihts using 2

/-- Per-client rate-limit window state (spec section 3, RateWindow):
when the current window started, and how many admitted-counting requests
have been observed in it. -/
structure RateWindow where
  windowStartedAt : Int
  count : Nat
deriving DecidableEq

/-- Modelled from the spec: the fixed-window admission check of the rate
limiter (spec sections 3 and 4.4).  The limiter itself is the external
`express-rate-limit` package — only its configuration (`windowMs`,
`max`) lives in the repository (`server.js` lines 8-12, part_001 lines
50-54) — so the algorithm is taken from the spec: look up or create the
RateWindow of the client key (`none` means the key was never seen); if
the elapsed time since `windowStartedAt` exceeds the window length,
reset the window; increment `count`; if `count` now exceeds the
configured maximum, deny with the remaining window time as `retryAfter`,
otherwise allow. -/
def admission (windowMs : Int) (maxReq : Nat) (st : Option RateWindow) (now : Int) :
    (Bool × Option Int) × RateWindow :=
  let w : RateWindow :=
    match st with
    | none => ⟨now, 0⟩
    | some w0 => if windowMs < now - w0.windowStartedAt then ⟨now, 0⟩ else w0
  let w2 : RateWindow := ⟨w.windowStartedAt, w.count + 1⟩
  if maxReq < w2.count then
    ((false, some (w.windowStartedAt + windowMs - now)), w2)
  else
    ((true, none), w2)

/-- Folds `admission` over a sequence of request times for one client key,
collecting the per-request decisions and the final window state. -/
def admissionSeq (windowMs : Int) (maxReq : Nat) :
    Option RateWindow → List Int → List (Bool × Option Int) × Option RateWindow
  | st, [] => ([], st)
  | st, t :: ts =>
    let r := admission windowMs maxReq st t
    let rest := admissionSeq windowMs maxReq (some r.2) ts
    (r.1 :: rest.1, rest.2)

/-- Helper: while the window budget is not exhausted and no request time
leaves the window, every request is admitted and the counter just
accumulates. -/
lemma admissionSeq_allowed (windowMs : Int) (maxReq : Nat) (t0 : Int) :
    ∀ (ts : List Int) (c : Nat), (∀ t ∈ ts, t - t0 ≤ windowMs) →
      c + ts.length ≤ maxReq →
      admissionSeq windowMs maxReq (some ⟨t0, c⟩) ts =
        (List.replicate ts.length (true, none), some ⟨t0, c + ts.length⟩) := by
  intro ts
  induction ts with
  | nil => intro c _ _; simp [admissionSeq]
  | cons t ts ihts =>
    intro c hin hbud
    have hstep : admission windowMs maxReq (some ⟨t0, c⟩) t = ((true, none), ⟨t0, c + 1⟩) := by
      unfold admission
      have hno : ¬ windowMs < t - t0 := by
        have := hin t (List.mem_cons_self t ts)
        omega
      dsimp only
      rw [if_neg hno]
      dsimp only
      rw [if_neg (by simp at hbud ⊢; omega : ¬ maxReq < c + 1)]
    rw [admissionSeq, hstep]
    simp only
    rw [ihts (c + 1) (fun t ht => hin t (List.mem_cons_of_mem _ ht))
      (by simp at hbud ⊢; omega)]
    simp [List.replicate_succ]
    omega

mutual
/-- JSON values, for the upload handler of the first variant whose body
middleware is `express.json`.  The fragment covers what that pipeline
needs here: numbers (integers), strings without escape sequences, and
objects; members are a separate type so that all recursions are
structural. -/
inductive Json
  | num (n : Int)
  | str (s : String)
  | obj (ms : JMembers)
/-- Member list of a JSON object. -/
inductive JMembers
  | nil
  | cons (key : String) (val : Json) (rest : JMembers)
end

mutual
/-- Models `JSON.stringify` on the fragment above: minimal punctuation, no
added whitespace, exactly as Node prints it. -/
def jsonStringify : Json → String
  | .num n => toString n
  | .str s => "\"" ++ s ++ "\""
  | .obj ms => "\x7b" ++ stringifyMembers ms ++ "\x7d"
/-- Stringifies object members, comma-separated. -/
def stringifyMembers : JMembers → String
  | .nil => ""
  | .cons k v rest =>
    let entry := "\"" ++ k ++ "\":" ++ jsonStringify v
    match rest with
    | .nil => entry
    | .cons _ _ _ => entry ++ "," ++ stringifyMembers rest
end

/-- True for the JSON whitespace characters. -/
def isWsChar (ch : Char) : Bool :=
  ch = ' ' || ch = '\n' || ch = '\t' || ch = '\r'

/-- Drops leading JSON whitespace, as `JSON.parse` does between tokens. -/
def skipWs (cs : List Char) : List Char :=
  cs.dropWhile isWsChar

/-- True for the ASCII digits. -/
def isDigitCh (ch : Char) : Bool :=
  decide ('0' ≤ ch) && decide (ch ≤ '9')

/-- Reads a run of digits, accumulating their value. -/
def parseDigits : Nat → List Char → Nat × List Char
  | acc, [] => (acc, [])
  | acc, ch :: rest =>
    if isDigitCh ch then parseDigits (acc * 10 + (ch.toNat - 48)) rest
    else (acc, ch :: rest)

/-- Reads the characters of a quoted string up to the closing quote
(escape sequences are outside the modelled fragment). -/
def parseStringBody : List Char → Option (List Char × List Char)
  | [] => none
  | ch :: rest =>
    if ch = '"' then some ([], rest)
    else (parseStringBody rest).map (fun p => (ch :: p.1, p.2))

mutual
/-- Models `JSON.parse` (the decoding done by the external `express.json`
body middleware) on the fragment above, fuel-bounded: a value is an
object, a string, or an integer, with whitespace allowed around
tokens. -/
def parseValue : Nat → List Char → Option (Json × List Char)
  | 0, _ => none
  | Nat.succ fuel, cs =>
    match skipWs cs with
    | [] => none
    | ch :: rest =>
      if ch = '\x7b' then
        match skipWs rest with
        | '\x7d' :: rest2 => some (.obj .nil, rest2)
        | rest2 => (parseMembers fuel rest2).map (fun p => (Json.obj p.1, p.2))
      else if ch = '"' then
        (parseStringBody rest).map (fun p => (Json.str (String.mk p.1), p.2))
      else if ch = '-' then
        match rest with
        | d :: _ =>
          if isDigitCh d then
            let p := parseDigits 0 rest
            some (Json.num (-(p.1 : Int)), p.2)
          else none
        | [] => none
      else if isDigitCh ch then
        let p := parseDigits 0 (ch :: rest)
        some (Json.num (p.1 : Int), p.2)
      else none
/-- Parses the members of a JSON object after its opening brace. -/
def parseMembers : Nat → List Char → Option (JMembers × List Char)
  | 0, _ => none
  | Nat.succ fuel, cs =>
    match skipWs cs with
    | '"' :: rest =>
      match parseStringBody rest with
      | none => none
      | some (key, rest2) =>
        match skipWs rest2 with
        | ':' :: rest3 =>
          match parseValue fuel rest3 with
          | none => none
          | some (v, rest4) =>
            match skipWs rest4 with
            | ',' :: rest5 =>
              (parseMembers fuel rest5).map
                (fun p => (JMembers.cons (String.mk key) v p.1, p.2))
            | '\x7d' :: rest5 => some (JMembers.cons (String.mk key) v JMembers.nil, rest5)
            | _ => none
        | _ => none
    | _ => none
end

/-- Entry point of the `JSON.parse` model: parse one value with enough
fuel and require only trailing whitespace after it. -/
def jsonParse (s : String) : Option Json :=
  match parseValue (s.length + 1) s.toList with
  | some (j, rest) => if skipWs rest = [] then some j else none
  | none => none

/-- Models `app.post("/upload")` of the chunked variant (part_001, lines
182-210), of part_000 (line 71) and of part_002 (line 37): the
`express.raw` middleware buffers all incoming writes of the request into
one Buffer `req.body`, and the handler reports `req.body.length`. -/
def uploadReceivedBytes (body : List Nat) : Nat :=
  body.length

/-- Models `app.post("/upload")` of `server.js` (lines 76-96) on a raw
octet-stream body: `body.length || parseInt(content-length header)`,
so an empty body falls back to the Content-Length header value. -/
def uploadSizeServer (body : List Nat) (contentLength : Nat) : Nat :=
  if body.length ≠ 0 then body.length else contentLength

/-- Models `app.post("/upload")` of the first variant in part_001 (lines
28-30): its only body middleware is `express.json`, so `req.body` is the
JSON.parse of the raw body, and the handler reports
`JSON.stringify(req.body).length` — the length of the re-serialised
body, not of the received bytes. -/
def uploadV1ReceivedBytes (raw : String) : Option Nat :=
  (jsonParse raw).map (fun j => (jsonStringify j).length)

/-- Characterisation of the duration-bounded loop on a clock trace: when
the trace reaches closure, the closing check is the first one at or past
the deadline, every earlier check (one per written chunk) was strictly
before the deadline, and the number of written chunks equals the number
of earlier checks. -/
lemma sendNextChunk_spec (startTime d : Int) :
    ∀ (ts : List Int) (n : Nat) (ct : Int),
      sendNextChunk startTime d ts = some (n, ct) →
      d ≤ ct - startTime ∧ ts[n]? = some ct ∧
      ∀ i t, i < n → ts[i]? = some t → t - startTime < d := by
  intro ts
  induction ts with
  | nil =>
    intro n ct h
    simp [sendNextChunk] at h
  | cons t ts ihts =>
    intro n ct h
    rw [sendNextChunk] at h
    by_cases hd : d ≤ t - startTime
    · rw [if_pos hd] at h
      simp only [Option.some.injEq, Prod.mk.injEq] at h
      obtain ⟨rfl, rfl⟩ := h
      exact ⟨hd, by simp, fun i t2 hi => by omega⟩
    · rw [if_neg hd] at h
      obtain ⟨⟨m, ct2⟩, hrec, heq⟩ := Option.map_eq_some'.mp h
      simp only [Prod.mk.injEq] at heq
      obtain ⟨rfl, rfl⟩ := heq
      obtain ⟨ih1, ih2, ih3⟩ := ihts m ct2 hrec
      refine ⟨ih1, by simpa using ih2, ?_⟩
      intro i t2 hi hget
      cases i with
      | zero =>
        simp only [List.getElem?_cons_zero, Option.some.injEq] at hget
        omega
      | succ j =>
        simp only [List.getElem?_cons_succ] at hget
        exact ih3 j t2 (by omega) hget

/-- Splitting lemma for the admission fold over an appended time list. -/
lemma admissionSeq_append (windowMs : Int) (maxReq : Nat) :
    ∀ (l1 l2 : List Int) (st : Option RateWindow),
      admissionSeq windowMs maxReq st (l1 ++ l2) =
        ((admissionSeq windowMs maxReq st l1).1 ++
          (admissionSeq windowMs maxReq (admissionSeq windowMs maxReq st l1).2 l2).1,
         (admissionSeq windowMs maxReq (admissionSeq windowMs maxReq st l1).2 l2).2) := by
  intro l1
  induction l1 with
  | nil => intro l2 st; simp [admissionSeq]
  | cons t l1 ih =>
    intro l2 st
    rw [List.cons_append, admissionSeq, admissionSeq, ih]
    simp

/-- C1 (counterexample): a download request with the valid size 1 and the
chunk parameter `-1` (accepted by `parseInt(...) || default` since `-1`
is truthy) gets `Content-Length: 1048576`, yet `chunkCount` is the
ceiling of a negative quotient, so the loop ends the stream at once and
zero payload bytes are delivered — the response does not carry
`size × 1MiB` bytes. -/
theorem download_chunked_negative_chunk_empty :
    downloadChunked (some 1) (some (-1)) = .ok ⟨1048576, [], true⟩ ∧
    totalBytes (downloadChunked (some 1) (some (-1))) = 0 ∧
    contentLengthOf (downloadChunked (some 1) (some (-1))) = some 1048576 ∧
    (0 : Int) ≠ 1048576 := by
  have hmain : downloadChunked (some 1) (some (-1)) = .ok ⟨1048576, [], true⟩ := by
    simp [downloadChunked, parseOr, jsCeilDiv]
    rw [sendChunk]
    norm_num
  refine ⟨hmain, ?_, ?_, by decide⟩
  · rw [hmain]; rfl
  · rw [hmain]; rfl

/-- C1 (amended): for every request whose parsed size is a valid number of
megabytes (1 to 100) and whose parsed chunk size is positive and
divisible by 4 — the 1 MiB default included — the chunked download
handler sets `Content-Length` to exactly `size × 1MiB`, ends the stream,
and the writes deliver exactly `size × 1MiB` bytes. -/
theorem download_chunked_exact_bytes (sizeQ chunkQ : Option Int)
    (h1 : 1 ≤ parseOr sizeQ 10) (h2 : parseOr sizeQ 10 ≤ 100)
    (h3 : 1 ≤ parseOr chunkQ (1024 * 1024))
    (h4 : (4:Int) ∣ parseOr chunkQ (1024 * 1024)) :
    contentLengthOf (downloadChunked sizeQ chunkQ) = some (parseOr sizeQ 10 * 1048576) ∧
    totalBytes (downloadChunked sizeQ chunkQ) = parseOr sizeQ 10 * 1048576 ∧
    ∃ r, downloadChunked sizeQ chunkQ = .ok r ∧ r.ended = true := by
  set size := parseOr sizeQ 10 with hsize
  set c := parseOr chunkQ (1024 * 1024) with hcq
  have hB1 : (1:Int) ≤ size * 1024 * 1024 := by nlinarith
  have hB4 : (4:Int) ∣ size * 1024 * 1024 := ⟨size * 262144, by ring⟩
  have htop := sendChunk_top (size * 1024 * 1024) c hB1 h3 hB4 h4
  obtain ⟨hend, _, _, _, hsum⟩ := htop
  have hred : downloadChunked sizeQ chunkQ =
      .ok ⟨size * 1024 * 1024,
        (sendChunk (size * 1024 * 1024) c (jsCeilDiv (size * 1024 * 1024) c) 0 0).1,
        (sendChunk (size * 1024 * 1024) c (jsCeilDiv (size * 1024 * 1024) c) 0 0).2⟩ := by
    unfold downloadChunked
    rw [← hsize, ← hcq]
    rw [if_neg (by omega : ¬ 100 < size), if_neg (by omega : ¬ size < 1)]
  have hBn : size * 1024 * 1024 = size * 1048576 := by ring
  refine ⟨?_, ?_, ?_⟩
  · rw [hred]
    simp only [contentLengthOf]
    rw [hBn]
  · rw [hred]
    simp only [totalBytes]
    rw [hsum, hBn]
  · exact ⟨_, hred, hend⟩

/-- C1 (witness): the concrete request `GET /download?size=5` with the
default chunk size gets `Content-Length: 5242880` and exactly 5,242,880
delivered bytes. -/
theorem download_chunked_exact_bytes_witness :
    1 ≤ parseOr (some 5) 10 ∧ parseOr (some 5) 10 ≤ 100 ∧
    1 ≤ parseOr none (1024 * 1024) ∧ (4:Int) ∣ parseOr none (1024 * 1024) ∧
    (contentLengthOf (downloadChunked (some 5) none) = some 5242880 ∧
      totalBytes (downloadChunked (some 5) none) = 5242880 ∧
      ∃ r, downloadChunked (some 5) none = .ok r ∧ r.ended = true) := by
  refine ⟨by decide, by decide, by decide, by decide, ?_⟩
  have := download_chunked_exact_bytes (some 5) none (by decide) (by decide)
    (by decide) (by decide)
  simpa [parseOr] using this

/-- C2 (counterexample): a size-bounded session with declared total
1 MiB and the positive chunk size 3 does not reproduce the declared
total: the very first chunk buffer (3 bytes) makes the generator throw,
so the loop writes nothing and never ends the stream, and the
concatenation of the written chunks is 0 bytes, not 1,048,576. -/
theorem sendChunk_unaligned_chunk_loses_bytes :
    sendChunk 1048576 3 (jsCeilDiv 1048576 3) 0 0 = ([], false) ∧
    sumSizes (sendChunk 1048576 3 (jsCeilDiv 1048576 3) 0 0).1 = 0 ∧
    (0 : Int) ≠ 1048576 := by
  have hcc : jsCeilDiv 1048576 3 = 349526 := by decide
  have hmain : sendChunk 1048576 3 (jsCeilDiv 1048576 3) 0 0 = ([], false) := by
    rw [hcc, sendChunk]
    norm_num [genOk]
  exact ⟨hmain, by rw [hmain]; rfl, by decide⟩

/-- C2 (amended): for every size-bounded session whose declared total and
chunk size are positive multiples of 4 (as they are for every validated
request using the default or any 4-aligned chunk parameter), the loop
writes chunks contiguously from offset 0 in strictly increasing order —
no gap, no duplicate — each step writing `min(chunkSize, remaining)`
bytes at the current `sentBytes` offset, and the written chunks sum to
exactly the declared total. -/
theorem sendChunk_ordered_lossless (B c : Int) (hB : 1 ≤ B) (hc : 1 ≤ c)
    (h4B : (4:Int) ∣ B) (h4c : (4:Int) ∣ c) :
    consecutiveFrom 0 (sendChunk B c (jsCeilDiv B c) 0 0).1 ∧
    (∀ p ∈ (sendChunk B c (jsCeilDiv B c) 0 0).1, p.2 = min c (B - p.1) ∧ 1 ≤ p.2) ∧
    sumSizes (sendChunk B c (jsCeilDiv B c) 0 0).1 = B := by
  obtain ⟨_, _, hcons, hpt, hsum⟩ := sendChunk_top B c hB hc h4B h4c
  exact ⟨hcons, hpt, hsum⟩

/-- C2 (witness): the session with a 12-byte total and 8-byte chunks
writes the contiguous chunks (0,8) and (8,4), which sum to 12. -/
theorem sendChunk_ordered_lossless_witness :
    (1:Int) ≤ 12 ∧ (1:Int) ≤ 8 ∧ (4:Int) ∣ 12 ∧ (4:Int) ∣ 8 ∧
    (consecutiveFrom 0 (sendChunk 12 8 (jsCeilDiv 12 8) 0 0).1 ∧
      (∀ p ∈ (sendChunk 12 8 (jsCeilDiv 12 8) 0 0).1, p.2 = min 8 (12 - p.1) ∧ 1 ≤ p.2) ∧
      sumSizes (sendChunk 12 8 (jsCeilDiv 12 8) 0 0).1 = 12) := by
  refine ⟨by decide, by decide, by decide, by decide, ?_⟩
  exact sendChunk_ordered_lossless 12 8 (by decide) (by decide) (by decide) (by decide)

/-- C9 (counterexample): the validated session `size=2` (2 MiB declared)
with the positive chunk size 6 performs 0 chunk writes instead of
`chunkCount = ceil(2097152/6) = 349526`, and `res.end()` is never
reached, because the first 6-byte chunk makes the generator throw and
the recursion stops there. -/
theorem sendChunk_unaligned_stops_early :
    (sendChunk 2097152 6 (jsCeilDiv 2097152 6) 0 0).1.length = 0 ∧
    (sendChunk 2097152 6 (jsCeilDiv 2097152 6) 0 0).2 = false ∧
    (jsCeilDiv 2097152 6).toNat = 349526 ∧ (0 : Nat) ≠ 349526 := by
  have hcc : jsCeilDiv 2097152 6 = 349526 := by decide
  have hmain : sendChunk 2097152 6 (jsCeilDiv 2097152 6) 0 0 = ([], false) := by
    rw [hcc, sendChunk]
    norm_num [genOk]
  refine ⟨by rw [hmain]; rfl, by rw [hmain], by rw [hcc]; rfl, by decide⟩

/-- C9 (amended): for every size-bounded session whose declared total and
chunk size are positive multiples of 4, the `sendChunk` recursion
terminates after exactly `chunkCount = ceil(bufferSize/chunkSize)` chunk
writes (indices strictly increasing one by one) and then ends the
stream. -/
theorem sendChunk_chunk_count_exact (B c : Int) (hB : 1 ≤ B) (hc : 1 ≤ c)
    (h4B : (4:Int) ∣ B) (h4c : (4:Int) ∣ c) :
    (sendChunk B c (jsCeilDiv B c) 0 0).1.length = (jsCeilDiv B c).toNat ∧
    (sendChunk B c (jsCeilDiv B c) 0 0).2 = true := by
  obtain ⟨hend, hlen, _, _, _⟩ := sendChunk_top B c hB hc h4B h4c
  exact ⟨hlen, hend⟩

/-- C9 (witness): the session with an 8-byte total and 4-byte chunks
performs exactly `ceil(8/4) = 2` writes and ends the stream. -/
theorem sendChunk_chunk_count_exact_witness :
    (1:Int) ≤ 8 ∧ (1:Int) ≤ 4 ∧ (4:Int) ∣ 8 ∧ (4:Int) ∣ 4 ∧
    ((sendChunk 8 4 (jsCeilDiv 8 4) 0 0).1.length = (jsCeilDiv 8 4).toNat ∧
      (sendChunk 8 4 (jsCeilDiv 8 4) 0 0).2 = true) := by
  refine ⟨by decide, by decide, by decide, by decide, ?_⟩
  exact sendChunk_chunk_count_exact 8 4 (by decide) (by decide) (by decide) (by decide)

/-- C3: the random payload generator does NOT always succeed.  For any
size not divisible by 4 (here 5, with an arbitrary PRNG stream) the last
32-bit word write is out of range, Node throws, and no buffer is
produced; in general success holds exactly for sizes divisible by 4, and
then the returned buffer has exactly the requested length. -/
theorem generateRandomBuffer_out_of_range :
    generateRandomBuffer (fun _ => 0) 5 = none ∧
    (∀ (rng : Nat → Nat) (n : Nat), (generateRandomBuffer rng n).isSome ↔ n % 4 = 0) ∧
    (∀ (rng : Nat → Nat) (n : Nat) (b : List Nat),
      generateRandomBuffer rng n = some b → b.length = n) := by
  refine ⟨?_, generateRandomBuffer_isSome_iff, fun rng n b h => generateRandomBuffer_length h⟩
  simp [generateRandomBuffer, genLoop, writeUInt32LE]

/-- C4 (counterexample): in `server.js` the configured maximum is 20 MB,
yet the oversized request `size=100` is not answered with a 400-class
error: the size is silently clamped with `Math.min(size, 20)` and a
200 response with a 20 MiB payload is sent. -/
theorem download_server_clamps_oversize :
    downloadServer (some 100) = ServerResult.ok 20971520 20971520 ∧
    ServerResult.ok 20971520 20971520 ≠ ServerResult.err 400 := by
  exact ⟨by decide, by decide⟩

/-- C4 (amended): the chunked variant rejects every request whose parsed
size exceeds its configured maximum of 100 with an HTTP 400 naming the
bound, streaming no payload bytes; the `server.js` variant instead
silently clamps any parsed size above its 20 MB maximum and responds
with the full 20 MiB payload. -/
theorem download_oversize_rejected_or_clamped :
    (∀ sizeQ chunkQ : Option Int, 100 < parseOr sizeQ 10 →
      downloadChunked sizeQ chunkQ = .err 400 "Maximum download size is 100MB" ∧
      totalBytes (downloadChunked sizeQ chunkQ) = 0) ∧
    (∀ sizeQ : Option Int, 20 < parseOr sizeQ 5 →
      downloadServer sizeQ = ServerResult.ok 20971520 20971520) := by
  constructor
  · intro sizeQ chunkQ h
    have herr : downloadChunked sizeQ chunkQ = .err 400 "Maximum download size is 100MB" := by
      unfold downloadChunked
      rw [if_pos h]
    exact ⟨herr, by rw [herr]; rfl⟩
  · intro sizeQ h
    unfold downloadServer
    dsimp only
    rw [min_eq_right (by omega : (20:Int) ≤ parseOr sizeQ 5)]
    norm_num

/-- C4 (witness): the oversized request `size=101` is rejected by the
chunked variant with the 400 error naming the 100MB bound and no
streamed bytes, and clamped to 20 MiB by the `server.js` variant. -/
theorem download_oversize_rejected_or_clamped_witness :
    (100 < parseOr (some 101) 10 ∧
      downloadChunked (some 101) none = .err 400 "Maximum download size is 100MB" ∧
      totalBytes (downloadChunked (some 101) none) = 0) ∧
    (20 < parseOr (some 101) 5 ∧
      downloadServer (some 101) = ServerResult.ok 20971520 20971520) := by
  refine ⟨⟨by decide, ?_, ?_⟩, ⟨by decide, ?_⟩⟩
  · exact (download_oversize_rejected_or_clamped.1 (some 101) none (by decide)).1
  · exact (download_oversize_rejected_or_clamped.1 (some 101) none (by decide)).2
  · exact download_oversize_rejected_or_clamped.2 (some 101) (by decide)

/-- C5: one client key that issues `max` admitted-counting requests at the
window start `t0` and then within the window gets them all allowed; the
`(max+1)`-th request, still strictly inside the window, is denied with
the positive remaining window time as `retryAfter`; and once the window
has elapsed, the next request is allowed again with the counter reset
to 1. -/
theorem rateLimiter_window_cycle (windowMs : Int) (maxReq : Nat) (t0 tLast tNext : Int)
    (ts : List Int)
    (hmax : 1 ≤ maxReq) (hlen : ts.length = maxReq - 1)
    (hts : ∀ t ∈ ts, t - t0 ≤ windowMs)
    (hLast : tLast - t0 < windowMs)
    (hNext : windowMs < tNext - t0) :
    (admissionSeq windowMs maxReq none ((t0 :: ts) ++ [tLast])).1 =
      List.replicate maxReq (true, none) ++ [(false, some (t0 + windowMs - tLast))] ∧
    0 < t0 + windowMs - tLast ∧
    admission windowMs maxReq (admissionSeq windowMs maxReq none ((t0 :: ts) ++ [tLast])).2 tNext =
      ((true, none), ⟨tNext, 1⟩) := by
  have hfirst : admission windowMs maxReq none t0 = ((true, none), ⟨t0, 1⟩) := by
    unfold admission
    dsimp only
    rw [if_neg (by omega : ¬ maxReq < 0 + 1)]
  have hmid := admissionSeq_allowed windowMs maxReq t0 ts 1 hts (by omega)
  have hrun : admissionSeq windowMs maxReq none (t0 :: ts) =
      ((true, none) :: List.replicate ts.length (true, none), some ⟨t0, 1 + ts.length⟩) := by
    rw [admissionSeq, hfirst]
    dsimp only
    rw [hmid]
  have hdeny : admission windowMs maxReq (some ⟨t0, 1 + ts.length⟩) tLast =
      ((false, some (t0 + windowMs - tLast)), ⟨t0, 1 + ts.length + 1⟩) := by
    unfold admission
    dsimp only
    rw [if_neg (by omega : ¬ windowMs < tLast - t0)]
    dsimp only
    rw [if_pos (by omega : maxReq < 1 + ts.length + 1)]
  have hsplit := admissionSeq_append windowMs maxReq (t0 :: ts) [tLast] none
  rw [hrun] at hsplit
  have hlaststep : admissionSeq windowMs maxReq (some ⟨t0, 1 + ts.length⟩) [tLast] =
      ([(false, some (t0 + windowMs - tLast))], some ⟨t0, 1 + ts.length + 1⟩) := by
    rw [admissionSeq, hdeny]
    dsimp only
    rw [admissionSeq]
  rw [hlaststep] at hsplit
  refine ⟨?_, by omega, ?_⟩
  · rw [hsplit]
    have : maxReq = ts.length + 1 := by omega
    rw [this, List.replicate_succ]
  · rw [hsplit]
    unfold admission
    dsimp only
    rw [if_pos (by omega : windowMs < tNext - t0)]
    dsimp only
    rw [if_neg (by omega : ¬ maxReq < 0 + 1)]

/-- C5 (witness): the spec scenario with `window = 60000ms`, `max = 3`,
requests at 0, 1000, 2000 and 3000 ms (all allowed except the 4th, which
is denied with `retryAfter = 57000 > 0`), then a request at 70000 ms,
allowed with the counter back at 1. -/
theorem rateLimiter_window_cycle_witness :
    (1 ≤ 3 ∧ ([1000, 2000] : List Int).length = 3 - 1 ∧
      (∀ t ∈ ([1000, 2000] : List Int), t - 0 ≤ 60000) ∧
      (3000:Int) - 0 < 60000 ∧ (60000:Int) < 70000 - 0) ∧
    (admissionSeq 60000 3 none ((0 :: [1000, 2000]) ++ [3000])).1 =
      List.replicate 3 (true, none) ++ [(false, some (0 + 60000 - 3000))] ∧
    0 < (0:Int) + 60000 - 3000 ∧
    admission 60000 3 (admissionSeq 60000 3 none ((0 :: [1000, 2000]) ++ [3000])).2 70000 =
      ((true, none), ⟨70000, 1⟩) := by
  refine ⟨⟨by decide, by decide, by decide, by decide, by decide⟩, ?_⟩
  exact rateLimiter_window_cycle 60000 3 0 3000 70000 [1000, 2000]
    (by decide) (by decide) (by decide) (by decide) (by decide)

/-- C6: whenever the progressive download closes normally on a clock
trace (one `Date.now()` observation per deadline check, one check before
every chunk), the closing time is at or past `startTime + duration` —
the stream never ends early — and the closure happens at the very first
check past the deadline: all `n` earlier checks, one per written chunk,
saw times strictly before the deadline. -/
theorem progressive_deadline_respected (durationQ : Option Int) (startTime : Int)
    (ts : List Int) (n : Nat) (ct : Int)
    (h : downloadProgressive durationQ startTime ts = some (n, ct)) :
    parseOr durationQ 5000 ≤ ct - startTime ∧
    ts[n]? = some ct ∧
    ∀ i t, i < n → ts[i]? = some t → t - startTime < parseOr durationQ 5000 :=
  sendNextChunk_spec startTime (parseOr durationQ 5000) ts n ct h

/-- C6 (witness): with `duration=5000` and checks at 0, 4999 and 5000 ms,
two chunks are written and the stream closes at the 5000 ms check. -/
theorem progressive_deadline_respected_witness :
    downloadProgressive (some 5000) 0 [0, 4999, 5000] = some (2, 5000) ∧
    (parseOr (some 5000) 5000 ≤ 5000 - 0 ∧
      ([0, 4999, 5000] : List Int)[2]? = some 5000 ∧
      ∀ i t, i < 2 → ([0, 4999, 5000] : List Int)[i]? = some t →
        t - 0 < parseOr (some 5000) 5000) := by
  refine ⟨by rfl, ?_⟩
  exact progressive_deadline_respected (some 5000) 0 [0, 4999, 5000] 2 5000 (by rfl)

/-- C7 (counterexample): the first-variant upload receiver reports the
length of the re-serialised JSON body, not the received byte count: the
3-byte JSON payload consisting of an opening brace, a space and a
closing brace is parsed to the empty object and re-serialised without
the space, so the handler reports 2 for a 3-byte body. -/
theorem uploadV1_reserialized_length_differs :
    uploadV1ReceivedBytes "\x7b \x7d" = some 2 ∧
    ("\x7b \x7d" : String).length = 3 ∧ (2 : Nat) ≠ 3 :=
  ⟨rfl, rfl, by decide⟩

/-- C7 (amended): the raw-body upload receivers report exactly the body
size: for a body delivered in any number of writes, the chunked-variant
receiver reports the total byte count of all writes, and the `server.js`
receiver (whose Content-Length fallback only triggers for the empty
body) reports the same; the first variant, whose body middleware is
`express.json`, instead reports the re-serialised JSON length, which can
differ from the received byte count. -/
theorem upload_raw_reports_exact (writes : List (List Nat)) :
    uploadReceivedBytes writes.flatten = (writes.map List.length).sum ∧
    uploadSizeServer writes.flatten writes.flatten.length = (writes.map List.length).sum := by
  have hj : writes.flatten.length = (writes.map List.length).sum := List.length_flatten writes
  refine ⟨hj, ?_⟩
  unfold uploadSizeServer
  by_cases h0 : writes.flatten.length ≠ 0
  · rw [if_pos h0]
    exact hj
  · rw [if_neg h0]
    exact hj

/-- C8: both streaming loops hold at most one chunk buffer in flight at
every moment: on each event trace of the size-bounded `sendChunk` loop
and of the duration-bounded `sendNextChunk` loop, every prefix has at
most one generated-but-unreleased chunk buffer, because the next
generation only happens in the completion callback of the previous
write. -/
theorem one_chunk_in_flight :
    (∀ (bufferSize chunkSize chunkCount chunkIndex sentBytes : Int),
      boundOK 0 (sendChunkEv bufferSize chunkSize chunkCount chunkIndex sentBytes) = true) ∧
    (∀ (startTime duration : Int) (ts : List Int),
      boundOK 0 (sendNextChunkEv startTime duration ts) = true) :=
  ⟨fun B c cc i s => boundOK_sendChunkEv (cc - i).toNat B c cc i s rfl,
    boundOK_sendNextChunkEv⟩

/-- C10: a download request whose size parameter is absent, non-numeric
(`parseInt` gives `NaN`) or equal to 0 is not rejected and not empty:
the chunked variant substitutes its 10 MB default (Content-Length
10485760, 10485760 bytes delivered) and `server.js` its 5 MB default
(5242880 bytes), identically for the absent and the zero parameter. -/
theorem download_default_size_fallback :
    downloadChunked none none = downloadChunked (some 0) none ∧
    contentLengthOf (downloadChunked none none) = some 10485760 ∧
    totalBytes (downloadChunked none none) = 10485760 ∧
    downloadServer none = ServerResult.ok 5242880 5242880 ∧
    downloadServer (some 0) = ServerResult.ok 5242880 5242880 := by
  have htop := sendChunk_top 10485760 1048576 (by norm_num) (by norm_num)
    (by norm_num) (by norm_num)
  obtain ⟨_, _, _, _, hsum⟩ := htop
  have hred : downloadChunked none none =
      .ok ⟨10485760, (sendChunk 10485760 1048576 (jsCeilDiv 10485760 1048576) 0 0).1,
        (sendChunk 10485760 1048576 (jsCeilDiv 10485760 1048576) 0 0).2⟩ := by
    unfold downloadChunked parseOr
    norm_num
  refine ⟨rfl, ?_, ?_, by decide, by decide⟩
  · rw [hred]; rfl
  · rw [hred]
    simp only [totalBytes]
    exact hsum

end SpeedTest

